import Mathlib

/-!
Shallow embedding of the spike-detection scanner of this repository
(`src/checker.py`, function `check_attr_spike`, together with the progress
callback wired in `src/gui_main.py`).

The host application (its scene graph, attribute store, playback options and
the shared current-time cursor) is modelled by the `Host` structure; the
mutable cursor is threaded explicitly.  Every interaction with the host is
recorded in an event trace so that claims about ordering and about the
absence of side effects can be stated.  Attribute values and the cursor are
rationals (the Python code uses floats; none of the claims depend on
floating-point rounding).
-/

attribute [local semireducible] Rat.sub Rat.add Rat.mul Rat.inv Rat.ofScientific

deriving instance DecidableEq for Except

/-- Attribute references are opaque host-scoped strings such as `pCube1.tx`. -/
abbrev AttrName := String

/-- The `NUMERIC_TYPES` tuple of `src/checker.py` (line 8). -/
def NUMERIC_TYPES : List String :=
  ["float", "double", "int", "long", "short", "byte", "doubleLinear", "doubleAngle"]

/-- One spike record, the tuple `(i_frame - 1, i_frame, prev_val, val, diff)`
appended in `check_attr_spike` (line 86). -/
structure SpikeRecord where
  prevFrame : Int
  curFrame  : Int
  prevVal   : Rat
  curVal    : Rat
  diff      : Rat
deriving DecidableEq, Repr

/-- The `result_dict` of `check_attr_spike`: an insertion-ordered mapping
from attribute reference to its list of spike records. -/
abbrev ResultDict := List (AttrName × List SpikeRecord)

/-- Python exceptions raised by the scanner: a `TypeError` or a
`RuntimeError`, each carrying its message. -/
inductive PyErr where
  | typeError (msg : String)
  | runtimeError (msg : String)
deriving DecidableEq, Repr

/-- One interaction with the host application (a `maya.cmds` call). -/
inductive Event where
  | objExists (a : AttrName)
  | getAttrType (a : AttrName)
  | queryPlaybackMin
  | queryPlaybackMax
  | queryTime
  | setTime (t : Rat)
  | getAttrValue (a : AttrName) (t : Rat)
  | progressCall (cur total : Int)
  | undoOpenChunk
  | undoCloseChunk
  | refreshSuspend (b : Bool)
  | refreshForce
deriving DecidableEq, Repr

/-- The host scene: existence and type of attributes, the scalar value an
attribute evaluates to while the cursor sits at a given time (`none` models
a read failure), and the configured playback range. -/
structure Host where
  objExists : AttrName → Bool
  attrType : AttrName → String
  attrValue : AttrName → Rat → Option Rat
  playbackMin : Rat
  playbackMax : Rat

/-- The first positional argument of `check_attr_spike`: a Python value that
may be a dict (insertion-ordered pairs), a list, or anything else. -/
inductive PyValue where
  | dict (pairs : List (AttrName × Rat))
  | list (items : List AttrName)
  | other

/-- A Python argument that is either `None` or an integer. -/
inductive PyOptInt where
  | noneV
  | intV (i : Int)

/-- Python `int()` applied to a rational: truncation toward zero. -/
def pyTrunc (q : Rat) : Int := if 0 ≤ q then ⌊q⌋ else ⌈q⌉

/-- `range(s, s+n)` over integers: the frames `s, s+1, ..., s+n-1`. -/
def intRange (s : Int) : Nat → List Int
  | 0 => []
  | n + 1 => s :: intRange (s + 1) n

/-- The validation loop of `check_attr_spike` (lines 51-58): for each key in
order, check existence, then check that the queried type is numeric; raise
`RuntimeError` at the first offending reference.  Returns the outcome and
the trace of host interactions performed. -/
def validateAttrs (host : Host) : List AttrName → Except PyErr Unit × List Event
  | [] => (.ok (), [])
  | a :: rest =>
    if host.objExists a then
      if NUMERIC_TYPES.contains (host.attrType a) then
        let r := validateAttrs host rest
        (r.1, .objExists a :: .getAttrType a :: r.2)
      else
        (.error (.runtimeError ("Attribute " ++ a ++ " is not numeric (type: "
            ++ host.attrType a ++ ")")), [.objExists a, .getAttrType a])
    else
      (.error (.runtimeError ("Node " ++ a ++ " does not exist")), [.objExists a])

/-- Mutable state of the scan loop: the shared current-time cursor, the
`prev_vals` dictionary and the `result_dict` accumulated so far. -/
structure ScanState where
  cursor : Rat
  prevVals : AttrName → Option Rat
  result : ResultDict

/-- Pointwise update of the `prev_vals` dictionary. -/
def updatePrev (f : AttrName → Option Rat) (a : AttrName) (v : Rat) :
    AttrName → Option Rat :=
  fun x => if x = a then some v else f x

/-- `result_dict` insertion (lines 83-87): create the key with a singleton
list on first spike, otherwise append to the existing list. -/
def insertSpike (rd : ResultDict) (a : AttrName) (s : SpikeRecord) : ResultDict :=
  match rd with
  | [] => [(a, [s])]
  | (b, l) :: rest =>
    if b = a then (b, l ++ [s]) :: rest else (b, l) :: insertSpike rest a s

/-- Python `abs` on a rational. -/
def ratAbs (q : Rat) : Rat := if q < 0 then -q else q

/-- The inner per-frame loop of `check_attr_spike` (lines 77-88): sample each
requested attribute at the current cursor position, record a spike when the
absolute delta strictly exceeds the threshold, and update `prev_vals`.
Returns the outcome, the new state and the trace of this pass. -/
def sampleFrame (host : Host) (i : Int) :
    List (AttrName × Rat) → ScanState → Except PyErr Unit × ScanState × List Event
  | [], st => (.ok (), st, [])
  | (a, thr) :: rest, st =>
    match host.attrValue a st.cursor with
    | none =>
      (.error (.runtimeError ("getAttr failed: " ++ a)), st, [.getAttrValue a st.cursor])
    | some val =>
      let st1 : ScanState :=
        match st.prevVals a with
        | none => { st with prevVals := updatePrev st.prevVals a val }
        | some prevVal =>
          let diff := ratAbs (val - prevVal)
          if thr < diff then
            { st with
              result := insertSpike st.result a ⟨i - 1, i, prevVal, val, diff⟩,
              prevVals := updatePrev st.prevVals a val }
          else
            { st with prevVals := updatePrev st.prevVals a val }
      let r := sampleFrame host i rest st1
      (r.1, r.2.1, .getAttrValue a st.cursor :: r.2.2)

/-- The outer frame loop of `check_attr_spike` (lines 74-92): set the cursor
to each frame in turn, sample all attributes, then invoke the optional
progress callback with the 1-based frame count and the total; an exception
raised by the callback aborts the remaining scan. -/
def scanFrames (host : Host) (pairs : List (AttrName × Rat))
    (cb : Option (Int → Int → Except PyErr Unit)) (total : Int) :
    List Int → Int → ScanState → Except PyErr Unit × ScanState × List Event
  | [], _, st => (.ok (), st, [])
  | i :: rest, idx, st =>
    let st1 : ScanState := { st with cursor := (i : Rat) }
    match sampleFrame host i pairs st1 with
    | (.error e, st2, tr) => (.error e, st2, .setTime (i : Rat) :: tr)
    | (.ok _, st2, tr) =>
      match cb with
      | none =>
        let r := scanFrames host pairs cb total rest (idx + 1) st2
        (r.1, r.2.1, .setTime (i : Rat) :: tr ++ r.2.2)
      | some f =>
        match f (idx + 1) total with
        | .error e =>
          (.error e, st2, .setTime (i : Rat) :: tr ++ [.progressCall (idx + 1) total])
        | .ok _ =>
          let r := scanFrames host pairs cb total rest (idx + 1) st2
          (r.1, r.2.1,
            .setTime (i : Rat) :: tr ++ .progressCall (idx + 1) total :: r.2.2)

/-- Resolution of the `start_frame` argument (lines 60-61): `None` is
replaced by `int(playbackOptions(q=True, minTime=True))`. -/
def resolveStart (host : Host) : PyOptInt → Int × List Event
  | .noneV => (pyTrunc host.playbackMin, [.queryPlaybackMin])
  | .intV s => (s, [])

/-- Resolution of the `end_frame` argument (lines 62-63): `None` is replaced
by `int(playbackOptions(q=True, maxTime=True))`. -/
def resolveEnd (host : Host) : PyOptInt → Int × List Event
  | .noneV => (pyTrunc host.playbackMax, [.queryPlaybackMax])
  | .intV e => (e, [])

/-- Shallow embedding of `check_attr_spike` (`src/checker.py`, lines 14-98).
Takes the host, the initial cursor position, the `node_attr_dict` argument,
the (already-substituted) `start_frame` and `end_frame` arguments and the
optional progress callback.  Returns the Python outcome (result dict or
raised exception), the final cursor position, and the trace of host
interactions in order. -/
def check_attr_spike (host : Host) (cursor0 : Rat) (node_attr_dict : PyValue)
    (start_frame end_frame : PyOptInt)
    (cb : Option (Int → Int → Except PyErr Unit)) :
    Except PyErr ResultDict × Rat × List Event :=
  match node_attr_dict with
  | .dict pairs =>
    match validateAttrs host (pairs.map Prod.fst) with
    | (.error e, tr) => (.error e, cursor0, tr)
    | (.ok _, tr0) =>
      let sp := resolveStart host start_frame
      let ep := resolveEnd host end_frame
      let origTime := cursor0
      let total := ep.1 - sp.1 + 1
      let pre := tr0 ++ sp.2 ++ ep.2
        ++ [.queryTime, .undoOpenChunk, .refreshSuspend true]
      let st0 : ScanState := ⟨cursor0, fun _ => none, []⟩
      let r := scanFrames host pairs cb total (intRange sp.1 (ep.1 + 1 - sp.1).toNat) 0 st0
      let post : List Event :=
        [.setTime origTime, .undoCloseChunk, .refreshSuspend false, .refreshForce]
      match r.1 with
      | .error e => (.error e, origTime, pre ++ r.2.2 ++ post)
      | .ok _ => (.ok r.2.1.result, origTime, pre ++ r.2.2 ++ post)
  | _ => (.error (.typeError ("node_attr_dict must be a dict or list")), cursor0, [])

/-- A call of `check_attr_spike` that omits `start_frame`, `end_frame` and
`progress_callback`: Python substitutes the declared defaults
`start_frame=0`, `end_frame=None`, `progress_callback=None` (line 14-18). -/
def check_attr_spike_defaults (host : Host) (cursor0 : Rat)
    (node_attr_dict : PyValue) : Except PyErr ResultDict × Rat × List Event :=
  check_attr_spike host cursor0 node_attr_dict (.intV 0) .noneV none

/-- The cancellation exception raised by the GUI progress callback
(`src/gui_main.py`, line 311). -/
def cancelledError : PyErr := .runtimeError ("Scan cancelled by user")

/-- The progress callback wired by the GUI (`update_progress` in
`src/gui_main.py`): once the user has requested cancellation (modelled as
every invocation from the `c`-th one on observing `wasCanceled`), it raises
`RuntimeError("Scan cancelled by user")`. -/
def cancelCB (c : Int) : Int → Int → Except PyErr Unit :=
  fun cur _ => if c ≤ cur then .error cancelledError else .ok ()

/-- The times at which attribute `a` was sampled (`cmds.getAttr` calls),
extracted from a trace in order. -/
def sampleEventsOf (a : AttrName) (tr : List Event) : List Rat :=
  tr.filterMap fun e =>
    match e with
    | .getAttrValue b t => if b = a then some t else none
    | _ => none

/-- The frames `s, ..., s+n-1` as rational cursor positions. -/
def ratRange (s : Int) (n : Nat) : List Rat :=
  (intRange s n).map fun i => (i : Rat)

/-- Whether an attribute reference fails validation against the host. -/
def badAttr (host : Host) (a : AttrName) : Bool :=
  !host.objExists a || !(NUMERIC_TYPES.contains (host.attrType a))

/-- The validation error message for an offending reference. -/
def valMsg (host : Host) (a : AttrName) : PyErr :=
  if host.objExists a then
    .runtimeError ("Attribute " ++ a ++ " is not numeric (type: " ++ host.attrType a ++ ")")
  else
    .runtimeError ("Node " ++ a ++ " does not exist")

/-- An attribute reference that resolves and has a numeric type. -/
def validKey (host : Host) (a : AttrName) : Prop :=
  host.objExists a = true ∧ host.attrType a ∈ NUMERIC_TYPES

instance (host : Host) (a : AttrName) : Decidable (validKey host a) := by
  unfold validKey
  infer_instance

/-- The host-interaction trace produced by a completed loop over the frames
`s, ..., s+n-1` with no progress callback: per frame one cursor move followed
by one value read per requested attribute. -/
def tracesFrom (pairs : List (AttrName × Rat)) : Int → Nat → List Event
  | _, 0 => []
  | s, n + 1 =>
    (Event.setTime (s : Rat) :: pairs.map fun p => Event.getAttrValue p.1 (s : Rat))
      ++ tracesFrom pairs (s + 1) n

/-- Every spike record stored in a result dict satisfies `P` for its key. -/
def allRecs (P : AttrName → SpikeRecord → Prop) (rd : ResultDict) : Prop :=
  ∀ p ∈ rd, ∀ r ∈ p.2, P p.1 r

/-- No key of a result dict carries an empty list of spike records. -/
def nonemptyVals (rd : ResultDict) : Prop :=
  ∀ p ∈ rd, p.2 ≠ []

/-- Example attribute curve from the specification: values `1, 3, 10, 10.5`
at frames `1..4` (constant `10.5` elsewhere). -/
def demoVal (a : AttrName) (t : Rat) : Rat :=
  if t = 1 then 1 else if t = 2 then 3 else if t = 3 then 10 else 10.5

/-- A concrete host whose every attribute exists, is a `double`, and follows
the demo curve. -/
def demoHost : Host :=
  { objExists := fun _ => true
    attrType := fun _ => "double"
    attrValue := fun a t => some (demoVal a t)
    playbackMin := 1
    playbackMax := 4 }

/-- A concrete host on which no attribute reference resolves. -/
def emptyHost : Host :=
  { objExists := fun _ => false
    attrType := fun _ => "double"
    attrValue := fun _ _ => none
    playbackMin := 0
    playbackMax := 10 }

/-- A concrete host with playback range `[5, 7]` and constant attributes. -/
def rangeHost : Host :=
  { objExists := fun _ => true
    attrType := fun _ => "double"
    attrValue := fun _ _ => some 0
    playbackMin := 5
    playbackMax := 7 }

/-- A host identical to `demoHost` on every attribute query but with a
different playback range (irrelevant to scans with explicit bounds). -/
def demoHost2 : Host := { demoHost with playbackMin := -3, playbackMax := 99 }

/-! ## Basic lemmas about the auxiliary structures -/

theorem intRange_length (s : Int) (n : Nat) : (intRange s n).length = n := by
  induction n generalizing s with
  | zero => rfl
  | succ n ih => simp [intRange, ih]

theorem ratRange_succ (s : Int) (n : Nat) :
    ratRange s (n + 1) = (s : Rat) :: ratRange (s + 1) n := rfl

theorem ratRange_length (s : Int) (n : Nat) : (ratRange s n).length = n := by
  induction n generalizing s with
  | zero => rfl
  | succ n ih => rw [ratRange_succ, List.length_cons, ih]

theorem ratAbs_eq_abs (q : Rat) : ratAbs q = |q| := by
  unfold ratAbs
  split
  · rw [abs_of_neg (by assumption)]
  · rw [abs_of_nonneg (not_lt.1 (by assumption))]

theorem lookup_eq_of_mem_nodup {l : List (AttrName × Rat)} {a : AttrName} {thr : Rat}
    (hnd : (l.map Prod.fst).Nodup) (h : (a, thr) ∈ l) :
    List.lookup a l = some thr := by
  induction l with
  | nil => cases h
  | cons p rest ih =>
    obtain ⟨k, b⟩ := p
    simp only [List.map_cons, List.nodup_cons] at hnd
    rcases List.mem_cons.1 h with heq | hmem
    · obtain ⟨rfl, rfl⟩ := Prod.mk.injEq .. ▸ heq
      simp [List.lookup]
    · have hak : a ≠ k := by
        rintro rfl
        exact hnd.1 (List.mem_map.2 ⟨(a, thr), hmem, rfl⟩)
      simp only [List.lookup, beq_iff_eq, if_neg hak]
      have : (a == k) = false := by simp [hak]
      rw [this]
      exact ih hnd.2 hmem

theorem threshold_unique {l : List (AttrName × Rat)} {a : AttrName} {t1 t2 : Rat}
    (hnd : (l.map Prod.fst).Nodup) (h1 : (a, t1) ∈ l) (h2 : (a, t2) ∈ l) : t1 = t2 := by
  have e1 := lookup_eq_of_mem_nodup hnd h1
  have e2 := lookup_eq_of_mem_nodup hnd h2
  rw [e1] at e2
  exact Option.some.inj e2

theorem insertSpike_allRecs {P : AttrName → SpikeRecord → Prop} {rd : ResultDict}
    {a : AttrName} {s : SpikeRecord} (h : allRecs P rd) (hs : P a s) :
    allRecs P (insertSpike rd a s) := by
  induction rd with
  | nil =>
    intro p hp r hr
    simp only [insertSpike, List.mem_singleton] at hp
    subst hp
    simp only [List.mem_singleton] at hr
    subst hr
    exact hs
  | cons q rest ih =>
    obtain ⟨b, l⟩ := q
    intro p hp r hr
    simp only [insertSpike] at hp
    by_cases hb : b = a
    · rw [if_pos hb] at hp
      rcases List.mem_cons.1 hp with rfl | hmem
      · rcases List.mem_append.1 hr with hrl | hrs
        · exact h (b, l) (List.mem_cons_self _ _) r hrl
        · rw [List.mem_singleton.1 hrs]
          show P b s
          rw [hb]
          exact hs
      · exact h p (List.mem_cons_of_mem _ hmem) r hr
    · rw [if_neg hb] at hp
      rcases List.mem_cons.1 hp with rfl | hmem
      · exact h (b, l) (List.mem_cons_self _ _) r hr
      · exact ih (fun q hq => h q (List.mem_cons_of_mem _ hq)) p hmem r hr

theorem insertSpike_nonempty {rd : ResultDict} {a : AttrName} {s : SpikeRecord}
    (h : nonemptyVals rd) : nonemptyVals (insertSpike rd a s) := by
  induction rd with
  | nil =>
    intro p hp
    simp only [insertSpike, List.mem_singleton] at hp
    subst hp
    simp
  | cons q rest ih =>
    obtain ⟨b, l⟩ := q
    intro p hp
    simp only [insertSpike] at hp
    by_cases hb : b = a
    · rw [if_pos hb] at hp
      rcases List.mem_cons.1 hp with rfl | hmem
      · simp
      · exact h p (List.mem_cons_of_mem _ hmem)
    · rw [if_neg hb] at hp
      rcases List.mem_cons.1 hp with rfl | hmem
      · exact h (b, l) (List.mem_cons_self _ _)
      · exact ih (fun q hq => h q (List.mem_cons_of_mem _ hq)) p hmem

theorem mem_keys_insertSpike {rd : ResultDict} {a x : AttrName} {s : SpikeRecord} :
    x ∈ (insertSpike rd a s).map Prod.fst ↔ x ∈ rd.map Prod.fst ∨ x = a := by
  induction rd with
  | nil => simp [insertSpike]
  | cons q rest ih =>
    obtain ⟨b, l⟩ := q
    by_cases hb : b = a
    · subst hb
      have hins : insertSpike ((b, l) :: rest) b s = (b, l ++ [s]) :: rest := by
        simp [insertSpike]
      rw [hins]
      simp only [List.map_cons, List.mem_cons]
      tauto
    · simp only [insertSpike, if_neg hb, List.map_cons, List.mem_cons, ih]
      tauto

theorem sampleFrame_cursor (host : Host) (i : Int) :
    ∀ (ps : List (AttrName × Rat)) (st : ScanState),
      (sampleFrame host i ps st).2.1.cursor = st.cursor := by
  intro ps
  induction ps with
  | nil => intro st; rfl
  | cons p rest ih =>
    obtain ⟨a, thr⟩ := p
    intro st
    simp only [sampleFrame]
    cases hv : host.attrValue a st.cursor with
    | none => rfl
    | some val =>
      simp only []
      rw [ih]
      cases hp : st.prevVals a with
      | none => rfl
      | some pv =>
        simp only []
        split <;> rfl

theorem validateAttrs_ok (host : Host) :
    ∀ l : List AttrName, (∀ a ∈ l, validKey host a) →
      (validateAttrs host l).1 = .ok () := by
  intro l
  induction l with
  | nil => intro _; rfl
  | cons a rest ih =>
    intro h
    obtain ⟨he, ht⟩ := h a (List.mem_cons_self _ _)
    have hc : NUMERIC_TYPES.contains (host.attrType a) = true := by
      simpa using ht
    simp only [validateAttrs, he, hc, if_pos]
    exact ih fun b hb => h b (List.mem_cons_of_mem _ hb)

theorem validateAttrs_events (host : Host) :
    ∀ l : List AttrName, ∀ e ∈ (validateAttrs host l).2,
      (∃ b, e = Event.objExists b) ∨ (∃ b, e = Event.getAttrType b) := by
  intro l
  induction l with
  | nil => intro e he; cases he
  | cons a rest ih =>
    intro e he
    simp only [validateAttrs] at he
    by_cases hex : host.objExists a
    · rw [if_pos hex] at he
      by_cases hty : NUMERIC_TYPES.contains (host.attrType a)
      · rw [if_pos hty] at he
        rcases List.mem_cons.1 he with rfl | he2
        · exact Or.inl ⟨a, rfl⟩
        rcases List.mem_cons.1 he2 with rfl | he3
        · exact Or.inr ⟨a, rfl⟩
        · exact ih e he3
      · rw [if_neg hty] at he
        rcases List.mem_cons.1 he with rfl | he2
        · exact Or.inl ⟨a, rfl⟩
        · rw [List.mem_singleton.1 he2]
          exact Or.inr ⟨a, rfl⟩
    · rw [if_neg hex] at he
      rw [List.mem_singleton.1 he]
      exact Or.inl ⟨a, rfl⟩

theorem sampleEventsOf_append (a : AttrName) (t1 t2 : List Event) :
    sampleEventsOf a (t1 ++ t2) = sampleEventsOf a t1 ++ sampleEventsOf a t2 := by
  unfold sampleEventsOf
  exact List.filterMap_append _ _ _

theorem sampleEventsOf_nil_of (a : AttrName) (tr : List Event)
    (h : ∀ e ∈ tr, ∀ b t, e ≠ Event.getAttrValue b t) : sampleEventsOf a tr = [] := by
  induction tr with
  | nil => rfl
  | cons e rest ih =>
    have hrec := ih fun x hx => h x (List.mem_cons_of_mem _ hx)
    unfold sampleEventsOf at hrec ⊢
    rw [List.filterMap_cons]
    cases e with
    | getAttrValue b t => exact absurd rfl (h _ (List.mem_cons_self _ _) b t)
    | objExists b => exact hrec
    | getAttrType b => exact hrec
    | queryPlaybackMin => exact hrec
    | queryPlaybackMax => exact hrec
    | queryTime => exact hrec
    | setTime t => exact hrec
    | progressCall c t => exact hrec
    | undoOpenChunk => exact hrec
    | undoCloseChunk => exact hrec
    | refreshSuspend b => exact hrec
    | refreshForce => exact hrec

/-- Claim C2: on every exit path of `check_attr_spike` (normal return,
`TypeError`, validation error, callback exception including cancellation, or
a sampling error), the current-time cursor after the call equals its value
immediately before the call. -/
theorem C2_cursor_restored (host : Host) (cursor0 : Rat) (v : PyValue)
    (sf ef : PyOptInt) (cb : Option (Int → Int → Except PyErr Unit)) :
    (check_attr_spike host cursor0 v sf ef cb).2.1 = cursor0 := by
  cases v with
  | dict pairs =>
    simp only [check_attr_spike]
    rcases hva : validateAttrs host (pairs.map Prod.fst) with ⟨r, tr⟩
    cases r with
    | error e => simp [hva]
    | ok u =>
      simp only [hva]
      split <;> rfl
  | list items => rfl
  | other => rfl

/-- Claim C9: any non-dict first argument (including a list of attribute
names) makes `check_attr_spike` raise a `TypeError` before any host
interaction: no existence check, no cursor read or write, no sampling. -/
theorem C9_typeerror_no_side_effects (host : Host) (cursor0 : Rat) (v : PyValue)
    (sf ef : PyOptInt) (cb : Option (Int → Int → Except PyErr Unit))
    (hv : ∀ pairs, v ≠ PyValue.dict pairs) :
    check_attr_spike host cursor0 v sf ef cb
      = (.error (.typeError ("node_attr_dict must be a dict or list")), cursor0, []) := by
  cases v with
  | dict pairs => exact absurd rfl (hv pairs)
  | list items => rfl
  | other => rfl

/-- Claim C10: with explicit bounds where the start frame exceeds the end
frame, `check_attr_spike` does not raise: it samples no frames, never
invokes the progress callback, restores the cursor, and returns the empty
mapping, indistinguishable from a completed scan with no spikes. -/
theorem C10_reversed_range (host : Host) (cursor0 : Rat) (pairs : List (AttrName × Rat))
    (startF endF : Int) (cb : Option (Int → Int → Except PyErr Unit))
    (hvalid : ∀ a ∈ pairs.map Prod.fst, validKey host a)
    (hgt : endF < startF) :
    (check_attr_spike host cursor0 (.dict pairs) (.intV startF) (.intV endF) cb).1 = .ok []
    ∧ (check_attr_spike host cursor0 (.dict pairs) (.intV startF) (.intV endF) cb).2.1 = cursor0
    ∧ (∀ a, sampleEventsOf a
        (check_attr_spike host cursor0 (.dict pairs) (.intV startF) (.intV endF) cb).2.2 = [])
    ∧ (∀ e ∈ (check_attr_spike host cursor0 (.dict pairs) (.intV startF) (.intV endF) cb).2.2,
        ∀ cur tot, e ≠ Event.progressCall cur tot) := by
  rcases hva : validateAttrs host (pairs.map Prod.fst) with ⟨r, tr0⟩
  have hr : r = .ok () := by
    have h2 := validateAttrs_ok host _ hvalid
    rw [hva] at h2
    cases r with
    | error e => exact absurd h2 (by simp)
    | ok u => rfl
  subst hr
  have hev := validateAttrs_events host (pairs.map Prod.fst)
  rw [hva] at hev
  have hn : (endF + 1 - startF).toNat = 0 := by omega
  have hev2 : ∀ e ∈ tr0,
      (∃ b, e = Event.objExists b) ∨ (∃ b, e = Event.getAttrType b) := hev
  have h0 : ∀ a, sampleEventsOf a tr0 = [] := by
    intro a
    apply sampleEventsOf_nil_of
    intro e he b t
    rcases hev2 e he with ⟨c, rfl⟩ | ⟨c, rfl⟩ <;> simp
  simp only [check_attr_spike, hva, resolveStart, resolveEnd, hn, intRange, scanFrames]
  refine ⟨trivial, trivial, ?_, ?_⟩
  · intro a
    simp only [sampleEventsOf_append, h0, List.nil_append, List.append_nil]
    rfl
  · intro e he cur tot
    simp only [List.append_nil, List.nil_append, List.mem_append, List.mem_cons,
      List.not_mem_nil, or_false] at he
    rcases he with (he0 | rfl | rfl | rfl) | (rfl | rfl | rfl | rfl)
    · rcases hev2 e he0 with ⟨c, rfl⟩ | ⟨c, rfl⟩ <;> simp
    all_goals simp

theorem sampleFrame_inv (host : Host) (i : Int) (P : AttrName → SpikeRecord → Prop) :
    ∀ (ps : List (AttrName × Rat)) (st : ScanState),
      (ps.map Prod.fst).Nodup →
      (∀ a thr pv v, (a, thr) ∈ ps → st.prevVals a = some pv → thr < ratAbs (v - pv) →
        P a ⟨i - 1, i, pv, v, ratAbs (v - pv)⟩) →
      allRecs P st.result →
      allRecs P (sampleFrame host i ps st).2.1.result := by
  intro ps
  induction ps with
  | nil => intro st _ _ h; exact h
  | cons p rest ih =>
    obtain ⟨a, thr⟩ := p
    intro st hnd hins hall
    simp only [List.map_cons, List.nodup_cons] at hnd
    have hlift : ∀ (v0 : Rat) b t pv2 v2, (b, t) ∈ rest →
        updatePrev st.prevVals a v0 b = some pv2 → t < ratAbs (v2 - pv2) →
        P b ⟨i - 1, i, pv2, v2, ratAbs (v2 - pv2)⟩ := by
      intro v0 b t pv2 v2 hbt hpv hlt2
      have hba : b ≠ a := by
        intro h
        exact hnd.1 (List.mem_map.2 ⟨(b, t), hbt, by rw [h]⟩)
      simp only [updatePrev, if_neg hba] at hpv
      exact hins b t pv2 v2 (List.mem_cons_of_mem _ hbt) hpv hlt2
    simp only [sampleFrame]
    cases hv : host.attrValue a st.cursor with
    | none => exact hall
    | some val =>
      simp only []
      cases hp : st.prevVals a with
      | none => exact ih _ hnd.2 (hlift val) hall
      | some pv =>
        simp only []
        by_cases hlt : thr < ratAbs (val - pv)
        · rw [if_pos hlt]
          exact ih _ hnd.2 (hlift val)
            (insertSpike_allRecs hall (hins a thr pv val (List.mem_cons_self _ _) hp hlt))
        · rw [if_neg hlt]
          exact ih _ hnd.2 (hlift val) hall

theorem scanFrames_inv (host : Host) (pairs : List (AttrName × Rat))
    (cb : Option (Int → Int → Except PyErr Unit)) (total : Int) (lo hi : Int)
    (P : AttrName → SpikeRecord → Prop)
    (hnd : (pairs.map Prod.fst).Nodup)
    (hP : ∀ (j : Int) a thr pv v, lo < j → j ≤ hi → (a, thr) ∈ pairs →
      thr < ratAbs (v - pv) → P a ⟨j - 1, j, pv, v, ratAbs (v - pv)⟩) :
    ∀ (n : Nat) (s : Int) (idx : Int) (st : ScanState),
      lo ≤ s → (s + n : Int) ≤ hi + 1 →
      (∀ a, st.prevVals a = none ∨ lo < s) →
      allRecs P st.result →
      allRecs P (scanFrames host pairs cb total (intRange s n) idx st).2.1.result := by
  intro n
  induction n with
  | zero => intro s idx st _ _ _ hall; exact hall
  | succ n ih =>
    intro s idx st hlo hhi hprev hall
    have hs_hi : s ≤ hi := by push_cast at hhi; omega
    have hins : ∀ a thr pv v, (a, thr) ∈ pairs →
        ({ st with cursor := (s : Rat) } : ScanState).prevVals a = some pv →
        thr < ratAbs (v - pv) → P a ⟨s - 1, s, pv, v, ratAbs (v - pv)⟩ := by
      intro a thr pv v hmem hpv hlt
      have hpv2 : st.prevVals a = some pv := hpv
      rcases hprev a with hnone | hlt_s
      · rw [hnone] at hpv2; cases hpv2
      · exact hP s a thr pv v hlt_s hs_hi hmem hlt
    have hsf := sampleFrame_inv host s P pairs { st with cursor := (s : Rat) } hnd hins hall
    have hnext : ∀ st2 : ScanState, allRecs P st2.result →
        allRecs P (scanFrames host pairs cb total (intRange (s + 1) n) (idx + 1) st2).2.1.result :=
      fun st2 h2 => ih (s + 1) (idx + 1) st2 (by omega) (by push_cast at hhi ⊢; omega)
        (fun a => Or.inr (by omega)) h2
    simp only [intRange, scanFrames]
    split
    · rename_i e st2 tr heq
      rw [heq] at hsf
      exact hsf
    · rename_i u st2 tr heq
      rw [heq] at hsf
      split
      · exact hnext st2 hsf
      · split
        · exact hsf
        · exact hnext st2 hsf

/-- Claim C1: every spike record `(pf, cf, pv, cv, d)` in a returned result
satisfies `cf = pf + 1`, `d = |cv - pv|`, and `d` strictly exceeds the
threshold registered for that attribute; a delta equal to the threshold
never produces a record. -/
theorem C1_spike_record_shape (host : Host) (cursor0 : Rat)
    (pairs : List (AttrName × Rat)) (sf ef : PyOptInt)
    (cb : Option (Int → Int → Except PyErr Unit)) (rd : ResultDict)
    (hnd : (pairs.map Prod.fst).Nodup)
    (hok : (check_attr_spike host cursor0 (.dict pairs) sf ef cb).1 = .ok rd) :
    ∀ p ∈ rd, ∀ r ∈ p.2,
      r.curFrame = r.prevFrame + 1 ∧ r.diff = |r.curVal - r.prevVal| ∧
      ∃ thr, List.lookup p.1 pairs = some thr ∧ thr < r.diff := by
  rcases hva : validateAttrs host (pairs.map Prod.fst) with ⟨rv, tr0⟩
  cases rv with
  | error e =>
    simp only [check_attr_spike, hva] at hok
    exact absurd hok (by simp)
  | ok u =>
    cases u
    simp only [check_attr_spike, hva] at hok
    split at hok
    · exact absurd hok (by simp)
    · have hrd : (scanFrames host pairs cb
          ((resolveEnd host ef).1 - (resolveStart host sf).1 + 1)
          (intRange (resolveStart host sf).1
            ((resolveEnd host ef).1 + 1 - (resolveStart host sf).1).toNat) 0
          ⟨cursor0, fun _ => none, []⟩).2.1.result = rd := by
        simpa using hok
      rw [← hrd]
      exact scanFrames_inv host pairs cb _ (resolveStart host sf).1
        ((resolveStart host sf).1
          + (((resolveEnd host ef).1 + 1 - (resolveStart host sf).1).toNat : Int))
        (fun a r => r.curFrame = r.prevFrame + 1 ∧ r.diff = |r.curVal - r.prevVal| ∧
          ∃ thr, List.lookup a pairs = some thr ∧ thr < r.diff)
        hnd
        (fun j a thr pv v _ _ hmem hlt =>
          ⟨by show j = j - 1 + 1; omega, ratAbs_eq_abs _,
            thr, lookup_eq_of_mem_nodup hnd hmem, hlt⟩)
        _ _ 0 _ le_rfl (by omega) (fun a => Or.inl rfl)
        (fun p hp => absurd hp (List.not_mem_nil p))

theorem C1_spike_record_shape_witness :
    (([("A.v", (5 : Rat))].map Prod.fst).Nodup)
    ∧ ((check_attr_spike demoHost 0 (.dict [("A.v", 5)]) (.intV 1) (.intV 4) none).1
        = .ok [("A.v", [⟨2, 3, 3, 10, 7⟩])])
    ∧ (∀ p ∈ [("A.v", [(⟨2, 3, 3, 10, 7⟩ : SpikeRecord)])], ∀ r ∈ p.2,
        r.curFrame = r.prevFrame + 1 ∧ r.diff = |r.curVal - r.prevVal| ∧
        ∃ thr, List.lookup p.1 [("A.v", (5 : Rat))] = some thr ∧ thr < r.diff) :=
  ⟨by decide, by decide,
    C1_spike_record_shape demoHost 0 [("A.v", (5 : Rat))] (.intV 1) (.intV 4) none
      [("A.v", [⟨2, 3, 3, 10, 7⟩])] (by decide) (by decide)⟩

theorem C9_typeerror_no_side_effects_witness :
    (∀ pairs, PyValue.list ["pCube1.tx"] ≠ PyValue.dict pairs)
    ∧ check_attr_spike demoHost 0 (.list ["pCube1.tx"]) (.intV 0) (.intV 5) none
      = (.error (.typeError ("node_attr_dict must be a dict or list")), 0, []) :=
  ⟨fun pairs h => PyValue.noConfusion h,
    C9_typeerror_no_side_effects demoHost 0 (.list ["pCube1.tx"]) (.intV 0) (.intV 5) none
      (fun pairs h => PyValue.noConfusion h)⟩

theorem C10_reversed_range_witness :
    (∀ a ∈ ([("pCube1.tx", (1 : Rat))].map Prod.fst), validKey demoHost a)
    ∧ ((3 : Int) < 5)
    ∧ ((check_attr_spike demoHost 2 (.dict [("pCube1.tx", 1)]) (.intV 5) (.intV 3)
        (some fun _ _ => .error (.runtimeError ("X")))).1 = .ok []
      ∧ (check_attr_spike demoHost 2 (.dict [("pCube1.tx", 1)]) (.intV 5) (.intV 3)
          (some fun _ _ => .error (.runtimeError ("X")))).2.1 = 2
      ∧ (∀ a, sampleEventsOf a
          (check_attr_spike demoHost 2 (.dict [("pCube1.tx", 1)]) (.intV 5) (.intV 3)
            (some fun _ _ => .error (.runtimeError ("X")))).2.2 = [])
      ∧ (∀ e ∈ (check_attr_spike demoHost 2 (.dict [("pCube1.tx", 1)]) (.intV 5) (.intV 3)
            (some fun _ _ => .error (.runtimeError ("X")))).2.2,
          ∀ cur tot, e ≠ Event.progressCall cur tot)) :=
  ⟨by decide, by decide,
    C10_reversed_range demoHost 2 [("pCube1.tx", 1)] 5 3
      (some fun _ _ => .error (.runtimeError ("X"))) (by decide) (by decide)⟩

theorem sampleFrame_ok (host : Host) (i : Int) :
    ∀ (ps : List (AttrName × Rat)) (st : ScanState),
      (∀ p ∈ ps, host.attrValue p.1 st.cursor ≠ none) →
      (sampleFrame host i ps st).1 = .ok ()
      ∧ (sampleFrame host i ps st).2.2
          = ps.map (fun p => Event.getAttrValue p.1 st.cursor) := by
  intro ps
  induction ps with
  | nil => intro st _; exact ⟨rfl, rfl⟩
  | cons p rest ih =>
    obtain ⟨a, thr⟩ := p
    intro st h
    simp only [sampleFrame]
    cases hv : host.attrValue a st.cursor with
    | none => exact absurd hv (h (a, thr) (List.mem_cons_self _ _))
    | some val =>
      simp only []
      cases hp : st.prevVals a with
      | none =>
        have h2 := ih { st with prevVals := updatePrev st.prevVals a val }
          (fun q hq => h q (List.mem_cons_of_mem _ hq))
        exact ⟨h2.1, by rw [List.map_cons]; exact congrArg _ h2.2⟩
      | some pv =>
        simp only []
        by_cases hlt : thr < ratAbs (val - pv)
        · rw [if_pos hlt]
          have h2 := ih { st with
              result := insertSpike st.result a ⟨i - 1, i, pv, val, ratAbs (val - pv)⟩,
              prevVals := updatePrev st.prevVals a val }
            (fun q hq => h q (List.mem_cons_of_mem _ hq))
          exact ⟨h2.1, by rw [List.map_cons]; exact congrArg _ h2.2⟩
        · rw [if_neg hlt]
          have h2 := ih { st with prevVals := updatePrev st.prevVals a val }
            (fun q hq => h q (List.mem_cons_of_mem _ hq))
          exact ⟨h2.1, by rw [List.map_cons]; exact congrArg _ h2.2⟩

theorem scanFrames_trace_none (host : Host) (pairs : List (AttrName × Rat)) (total : Int)
    (hvals : ∀ p ∈ pairs, ∀ t : Rat, host.attrValue p.1 t ≠ none) :
    ∀ (n : Nat) (s : Int) (idx : Int) (st : ScanState),
      (scanFrames host pairs none total (intRange s n) idx st).1 = .ok ()
      ∧ (scanFrames host pairs none total (intRange s n) idx st).2.2
          = tracesFrom pairs s n := by
  intro n
  induction n with
  | zero => exact fun s idx st => ⟨rfl, rfl⟩
  | succ n ih =>
    intro s idx st
    simp only [intRange, scanFrames]
    have hsf := sampleFrame_ok host s pairs { st with cursor := (s : Rat) }
      (fun p hp => hvals p hp _)
    rcases hres : sampleFrame host s pairs { st with cursor := (s : Rat) } with ⟨r1, st2, tr⟩
    rw [hres] at hsf
    obtain ⟨h1, h2⟩ := hsf
    have hr1 : r1 = .ok () := h1
    have htr : tr = pairs.map (fun p => Event.getAttrValue p.1 (s : Rat)) := h2
    subst hr1
    subst htr
    have hrec := ih (s + 1) (idx + 1) st2
    refine ⟨hrec.1, ?_⟩
    show Event.setTime (s : Rat) :: pairs.map (fun p => Event.getAttrValue p.1 (s : Rat))
        ++ (scanFrames host pairs none total (intRange (s + 1) n) (idx + 1) st2).2.2
      = tracesFrom pairs s (n + 1)
    rw [hrec.2]
    simp only [tracesFrom, List.cons_append]

theorem filterMap_keys_nil {a : AttrName} (c : Rat) :
    ∀ ps : List (AttrName × Rat), a ∉ ps.map Prod.fst →
      (ps.filterMap fun p => if p.1 = a then some c else none) = [] := by
  intro ps
  induction ps with
  | nil => intro _; rfl
  | cons p rest ih =>
    intro h
    simp only [List.map_cons, List.mem_cons, not_or] at h
    rw [List.filterMap_cons, if_neg (fun he => h.1 he.symm)]
    exact ih h.2

theorem filterMap_keys_eq {a : AttrName} (c : Rat) :
    ∀ ps : List (AttrName × Rat), a ∈ ps.map Prod.fst → (ps.map Prod.fst).Nodup →
      (ps.filterMap fun p => if p.1 = a then some c else none) = [c] := by
  intro ps
  induction ps with
  | nil => intro h; cases h
  | cons p rest ih =>
    intro h hnd
    simp only [List.map_cons, List.nodup_cons] at hnd
    rcases List.mem_cons.1 h with heq | hmem
    · rw [List.filterMap_cons, if_pos heq.symm]
      rw [filterMap_keys_nil c rest (heq ▸ hnd.1)]
    · have hpa : p.1 ≠ a := by
        intro he
        exact hnd.1 (he ▸ hmem)
      rw [List.filterMap_cons, if_neg hpa]
      exact ih hmem hnd.2

theorem sampleEventsOf_frame (a : AttrName) (ps : List (AttrName × Rat)) (c : Rat) :
    sampleEventsOf a (Event.setTime c :: ps.map fun p => Event.getAttrValue p.1 c)
      = ps.filterMap fun p => if p.1 = a then some c else none := by
  unfold sampleEventsOf
  rw [List.filterMap_cons]
  simp only []
  rw [List.filterMap_map]
  rfl

theorem sampleEventsOf_tracesFrom (a : AttrName) (pairs : List (AttrName × Rat))
    (ha : a ∈ pairs.map Prod.fst) (hnd : (pairs.map Prod.fst).Nodup) :
    ∀ (n : Nat) (s : Int),
      sampleEventsOf a (tracesFrom pairs s n) = ratRange s n := by
  intro n
  induction n with
  | zero => intro s; rfl
  | succ n ih =>
    intro s
    simp only [tracesFrom]
    rw [sampleEventsOf_append, sampleEventsOf_frame,
      filterMap_keys_eq _ _ ha hnd, ih, ratRange_succ]
    rfl

theorem resolveStart_sampleEvents (host : Host) (a : AttrName) (x : PyOptInt) :
    sampleEventsOf a (resolveStart host x).2 = [] := by
  cases x <;> rfl

theorem resolveEnd_sampleEvents (host : Host) (a : AttrName) (x : PyOptInt) :
    sampleEventsOf a (resolveEnd host x).2 = [] := by
  cases x <;> rfl

theorem check_sampleEvents (host : Host) (cursor0 : Rat) (pairs : List (AttrName × Rat))
    (sf ef : PyOptInt)
    (hnd : (pairs.map Prod.fst).Nodup)
    (hvalid : ∀ a ∈ pairs.map Prod.fst, validKey host a)
    (hvals : ∀ p ∈ pairs, ∀ t : Rat, host.attrValue p.1 t ≠ none) :
    ∀ a ∈ pairs.map Prod.fst,
      sampleEventsOf a (check_attr_spike host cursor0 (.dict pairs) sf ef none).2.2
        = ratRange (resolveStart host sf).1
            ((resolveEnd host ef).1 + 1 - (resolveStart host sf).1).toNat := by
  intro a ha
  rcases hva : validateAttrs host (pairs.map Prod.fst) with ⟨rv, tr0⟩
  have hrv : rv = .ok () := by
    have h2 := validateAttrs_ok host _ hvalid
    rw [hva] at h2
    cases rv with
    | error e => exact absurd h2 (by simp)
    | ok u => rfl
  subst hrv
  have hev : ∀ e ∈ tr0,
      (∃ b, e = Event.objExists b) ∨ (∃ b, e = Event.getAttrType b) := by
    have h2 := validateAttrs_events host (pairs.map Prod.fst)
    rw [hva] at h2
    exact h2
  have htr0 : sampleEventsOf a tr0 = [] := by
    apply sampleEventsOf_nil_of
    intro e he b t
    rcases hev e he with ⟨c, rfl⟩ | ⟨c, rfl⟩ <;> simp
  have hloop := scanFrames_trace_none host pairs
    ((resolveEnd host ef).1 - (resolveStart host sf).1 + 1) hvals
    ((resolveEnd host ef).1 + 1 - (resolveStart host sf).1).toNat
    (resolveStart host sf).1 0 ⟨cursor0, fun _ => none, []⟩
  simp only [check_attr_spike, hva]
  split
  · rename_i e heq
    rw [hloop.1] at heq
    exact absurd heq (by simp)
  · have hq1 : sampleEventsOf a
        [Event.queryTime, Event.undoOpenChunk, Event.refreshSuspend true] = [] := rfl
    have hq2 : sampleEventsOf a
        [Event.setTime cursor0, Event.undoCloseChunk,
          Event.refreshSuspend false, Event.refreshForce] = [] := rfl
    simp only [sampleEventsOf_append, htr0, resolveStart_sampleEvents,
      resolveEnd_sampleEvents, hq1, hq2, List.nil_append, List.append_nil, hloop.2,
      sampleEventsOf_tracesFrom a pairs ha hnd]

/-- Claim C3: a valid scan with `start ≤ end` samples every registered
attribute exactly `end - start + 1` times, once per frame in ascending
order; every spike record references frames inside `[start, end]`; and no
record is ever produced at the first sampled frame. -/
theorem C3_full_scan (host : Host) (cursor0 : Rat) (pairs : List (AttrName × Rat))
    (startF endF : Int)
    (hnd : (pairs.map Prod.fst).Nodup)
    (hvalid : ∀ a ∈ pairs.map Prod.fst, validKey host a)
    (hvals : ∀ p ∈ pairs, ∀ t : Rat, host.attrValue p.1 t ≠ none)
    (hle : startF ≤ endF) :
    (∃ rd, (check_attr_spike host cursor0 (.dict pairs) (.intV startF) (.intV endF) none).1
        = .ok rd
      ∧ ∀ p ∈ rd, ∀ r ∈ p.2,
          startF ≤ r.prevFrame ∧ startF < r.curFrame ∧ r.curFrame ≤ endF)
    ∧ (∀ a ∈ pairs.map Prod.fst,
        sampleEventsOf a
            (check_attr_spike host cursor0 (.dict pairs) (.intV startF) (.intV endF) none).2.2
          = ratRange startF (endF + 1 - startF).toNat
        ∧ ((sampleEventsOf a
            (check_attr_spike host cursor0 (.dict pairs)
              (.intV startF) (.intV endF) none).2.2).length : Int)
          = endF - startF + 1) := by
  constructor
  · rcases hva : validateAttrs host (pairs.map Prod.fst) with ⟨rv, tr0⟩
    have hrv : rv = .ok () := by
      have h2 := validateAttrs_ok host _ hvalid
      rw [hva] at h2
      cases rv with
      | error e => exact absurd h2 (by simp)
      | ok u => rfl
    subst hrv
    have hloop := scanFrames_trace_none host pairs (endF - startF + 1) hvals
      (endF + 1 - startF).toNat startF 0 ⟨cursor0, fun _ => none, []⟩
    simp only [check_attr_spike, hva, resolveStart, resolveEnd]
    split
    · rename_i e heq
      rw [hloop.1] at heq
      exact absurd heq (by simp)
    · refine ⟨_, rfl, ?_⟩
      exact scanFrames_inv host pairs none (endF - startF + 1) startF endF
        (fun x r => startF ≤ r.prevFrame ∧ startF < r.curFrame ∧ r.curFrame ≤ endF)
        hnd
        (fun j x thr pv v h1 h2 _ _ =>
          ⟨by show startF ≤ j - 1; omega, h1, h2⟩)
        _ startF 0 _ le_rfl (by omega) (fun x => Or.inl rfl)
        (fun p hp => absurd hp (List.not_mem_nil p))
  · intro a ha
    have h2 := check_sampleEvents host cursor0 pairs (.intV startF) (.intV endF)
      hnd hvalid hvals a ha
    refine ⟨h2, ?_⟩
    rw [h2, ratRange_length]
    simp only [resolveStart, resolveEnd]
    omega

theorem C3_full_scan_witness :
    (([("A.v", (5 : Rat))].map Prod.fst).Nodup
    ∧ (∀ a ∈ [("A.v", (5 : Rat))].map Prod.fst, validKey demoHost a)
    ∧ (∀ p ∈ [("A.v", (5 : Rat))], ∀ t : Rat, demoHost.attrValue p.1 t ≠ none)
    ∧ ((1 : Int) ≤ 4))
    ∧ ((∃ rd, (check_attr_spike demoHost 0 (.dict [("A.v", 5)]) (.intV 1) (.intV 4) none).1
          = .ok rd
        ∧ ∀ p ∈ rd, ∀ r ∈ p.2,
            (1 : Int) ≤ r.prevFrame ∧ (1 : Int) < r.curFrame ∧ r.curFrame ≤ 4)
      ∧ (∀ a ∈ [("A.v", (5 : Rat))].map Prod.fst,
          sampleEventsOf a
              (check_attr_spike demoHost 0 (.dict [("A.v", 5)]) (.intV 1) (.intV 4) none).2.2
            = ratRange 1 ((4 : Int) + 1 - 1).toNat
          ∧ ((sampleEventsOf a
              (check_attr_spike demoHost 0 (.dict [("A.v", 5)])
                (.intV 1) (.intV 4) none).2.2).length : Int)
            = 4 - 1 + 1)) :=
  ⟨⟨by decide, by decide, fun p _ t h => Option.noConfusion h, by decide⟩,
    C3_full_scan demoHost 0 [("A.v", 5)] 1 4 (by decide) (by decide)
      (fun p _ t h => Option.noConfusion h) (by decide)⟩

theorem validateAttrs_find (host : Host) :
    ∀ (l : List AttrName) (a : AttrName), l.find? (badAttr host) = some a →
      (validateAttrs host l).1 = .error (valMsg host a) := by
  intro l
  induction l with
  | nil => intro a h; cases h
  | cons b rest ih =>
    intro a h
    by_cases hb : badAttr host b = true
    · rw [List.find?_cons_of_pos _ hb] at h
      have hba : b = a := Option.some.inj h
      subst hba
      by_cases hex : host.objExists b = true
      · have hty : NUMERIC_TYPES.contains (host.attrType b) = false := by
          simp only [badAttr, hex, Bool.not_true, Bool.false_or, Bool.not_eq_true'] at hb
          exact hb
        simp only [validateAttrs, hex, if_pos, hty, Bool.false_eq_true, if_false]
        rw [valMsg, if_pos hex]
      · have hex2 : host.objExists b = false := Bool.not_eq_true _ ▸ hex
        simp only [validateAttrs, hex2, Bool.false_eq_true, if_false]
        rw [valMsg, if_neg (by rw [hex2]; exact Bool.false_ne_true)]
    · rw [List.find?_cons_of_neg _ (Bool.not_eq_true _ ▸ hb)] at h
      have hrec := ih a h
      have hb2 : badAttr host b = false := Bool.not_eq_true _ ▸ hb
      simp only [badAttr, Bool.or_eq_false_iff, Bool.not_eq_false'] at hb2
      simp only [validateAttrs, hb2.1, hb2.2, if_pos]
      exact hrec

/-- Claim C4: when some requested reference does not resolve or is
non-numeric, `check_attr_spike` raises a `RuntimeError` naming the first
offending reference, before any frame is sampled and before the cursor is
read or mutated: the trace holds only existence and type queries, and the
cursor is untouched. -/
theorem C4_validation_fail_fast (host : Host) (cursor0 : Rat)
    (pairs : List (AttrName × Rat)) (sf ef : PyOptInt)
    (cb : Option (Int → Int → Except PyErr Unit)) (a : AttrName)
    (hfind : (pairs.map Prod.fst).find? (badAttr host) = some a) :
    (check_attr_spike host cursor0 (.dict pairs) sf ef cb).1 = .error (valMsg host a)
    ∧ (valMsg host a = .runtimeError ("Node " ++ a ++ " does not exist")
      ∨ valMsg host a = .runtimeError ("Attribute " ++ a ++ " is not numeric (type: "
          ++ host.attrType a ++ ")"))
    ∧ (check_attr_spike host cursor0 (.dict pairs) sf ef cb).2.1 = cursor0
    ∧ ∀ e ∈ (check_attr_spike host cursor0 (.dict pairs) sf ef cb).2.2,
        (∃ b, e = Event.objExists b) ∨ (∃ b, e = Event.getAttrType b) := by
  rcases hva : validateAttrs host (pairs.map Prod.fst) with ⟨rv, tr0⟩
  have h1 := validateAttrs_find host _ a hfind
  rw [hva] at h1
  have hrv : rv = .error (valMsg host a) := h1
  subst hrv
  have hev : ∀ e ∈ tr0,
      (∃ b, e = Event.objExists b) ∨ (∃ b, e = Event.getAttrType b) := by
    have h2 := validateAttrs_events host (pairs.map Prod.fst)
    rw [hva] at h2
    exact h2
  have hmsg : valMsg host a = .runtimeError ("Node " ++ a ++ " does not exist")
      ∨ valMsg host a = .runtimeError ("Attribute " ++ a ++ " is not numeric (type: "
          ++ host.attrType a ++ ")") := by
    unfold valMsg
    split
    · exact Or.inr rfl
    · exact Or.inl rfl
  simp only [check_attr_spike, hva]
  exact ⟨trivial, hmsg, trivial, hev⟩

theorem C4_validation_fail_fast_witness :
    ((["pCube1.tx"].find? (badAttr emptyHost)) = some ("pCube1.tx"))
    ∧ ((check_attr_spike emptyHost 3 (.dict [("pCube1.tx", 1)]) (.intV 0) (.intV 5) none).1
        = .error (valMsg emptyHost ("pCube1.tx"))
      ∧ (valMsg emptyHost ("pCube1.tx")
          = .runtimeError ("Node " ++ "pCube1.tx" ++ " does not exist")
        ∨ valMsg emptyHost ("pCube1.tx")
          = .runtimeError ("Attribute " ++ "pCube1.tx" ++ " is not numeric (type: "
              ++ emptyHost.attrType ("pCube1.tx") ++ ")"))
      ∧ (check_attr_spike emptyHost 3 (.dict [("pCube1.tx", 1)]) (.intV 0) (.intV 5) none).2.1 = 3
      ∧ ∀ e ∈ (check_attr_spike emptyHost 3 (.dict [("pCube1.tx", 1)])
            (.intV 0) (.intV 5) none).2.2,
          (∃ b, e = Event.objExists b) ∨ (∃ b, e = Event.getAttrType b)) :=
  ⟨by decide,
    C4_validation_fail_fast emptyHost 3 [("pCube1.tx", 1)] (.intV 0) (.intV 5) none
      ("pCube1.tx") (by decide)⟩

theorem cancel_ne_node_msg (b : String) :
    ("Scan cancelled by user" : String) ≠ "Node " ++ b ++ " does not exist" := by
  intro h
  have h2 := congrArg String.data h
  have hS : ("Scan cancelled by user" : String).data
      = 'S' :: ("can cancelled by user" : String).data := by decide
  have hN : ("Node " : String).data = 'N' :: ("ode " : String).data := by decide
  rw [String.data_append, String.data_append, hS, hN] at h2
  simp at h2

theorem cancel_ne_attr_msg (b t : String) :
    ("Scan cancelled by user" : String)
      ≠ "Attribute " ++ b ++ " is not numeric (type: " ++ t ++ ")" := by
  intro h
  have h2 := congrArg String.data h
  have hS : ("Scan cancelled by user" : String).data
      = 'S' :: ("can cancelled by user" : String).data := by decide
  have hA : ("Attribute " : String).data = 'A' :: ("ttribute " : String).data := by decide
  rw [String.data_append, String.data_append, String.data_append,
    String.data_append, hS, hA] at h2
  simp at h2

theorem sampleEventsOf_cons_progress (a : AttrName) (cur tot : Int) (tr : List Event) :
    sampleEventsOf a (Event.progressCall cur tot :: tr) = sampleEventsOf a tr := by
  unfold sampleEventsOf
  rw [List.filterMap_cons]

theorem scanFrames_cancel (host : Host) (pairs : List (AttrName × Rat)) (total : Int)
    (c : Int)
    (hvals : ∀ p ∈ pairs, ∀ t : Rat, host.attrValue p.1 t ≠ none) :
    ∀ (n : Nat) (s : Int) (idx : Int) (st : ScanState),
      idx + 1 ≤ c → c ≤ idx + n →
      (scanFrames host pairs (some (cancelCB c)) total (intRange s n) idx st).1
        = .error cancelledError
      ∧ (∀ a ∈ pairs.map Prod.fst, (pairs.map Prod.fst).Nodup →
          sampleEventsOf a
            (scanFrames host pairs (some (cancelCB c)) total (intRange s n) idx st).2.2
          = ratRange s (c - idx).toNat) := by
  intro n
  induction n with
  | zero =>
    intro s idx st h1 h2
    exact absurd h2 (by omega)
  | succ n ih =>
    intro s idx st h1 h2
    have hsf := sampleFrame_ok host s pairs { st with cursor := (s : Rat) }
      (fun p hp => hvals p hp _)
    simp only [intRange, scanFrames]
    split
    · rename_i e st2 tr heq
      rw [heq] at hsf
      exact absurd hsf.1 (by simp)
    · rename_i u st2 tr heq
      rw [heq] at hsf
      have htr : tr = pairs.map (fun p => Event.getAttrValue p.1 (s : Rat)) := hsf.2
      subst htr
      split
      · rename_i e heq2
        have hcle : c ≤ idx + 1 := by
          by_contra hgt
          rw [cancelCB, if_neg hgt] at heq2
          exact absurd heq2 (by simp)
        have he : e = cancelledError := by
          rw [cancelCB, if_pos hcle] at heq2
          exact (Except.error.inj heq2).symm
        subst he
        refine ⟨rfl, ?_⟩
        intro a ha hnd
        have hn1 : (c - idx).toNat = 1 := by omega
        rw [hn1, ratRange_succ]
        show sampleEventsOf a ((Event.setTime (s : Rat)
            :: pairs.map fun p => Event.getAttrValue p.1 (s : Rat))
          ++ [Event.progressCall (idx + 1) total]) = _
        rw [sampleEventsOf_append, sampleEventsOf_frame, filterMap_keys_eq _ _ ha hnd]
        rfl
      · rename_i u2 heq2
        have hgt : ¬ c ≤ idx + 1 := by
          intro hcle
          rw [cancelCB, if_pos hcle] at heq2
          exact absurd heq2 (by simp)
        have hrec := ih (s + 1) (idx + 1) st2 (by omega) (by push_cast at h2 ⊢; omega)
        refine ⟨hrec.1, ?_⟩
        intro a ha hnd
        show sampleEventsOf a ((Event.setTime (s : Rat)
            :: pairs.map fun p => Event.getAttrValue p.1 (s : Rat))
          ++ Event.progressCall (idx + 1) total
            :: (scanFrames host pairs (some (cancelCB c)) total
                (intRange (s + 1) n) (idx + 1) st2).2.2) = _
        rw [sampleEventsOf_append, sampleEventsOf_frame, filterMap_keys_eq _ _ ha hnd,
          sampleEventsOf_cons_progress]
        have hrw := hrec.2 a ha hnd
        rw [hrw]
        have hn1 : (c - idx).toNat = (c - (idx + 1)).toNat + 1 := by omega
        rw [hn1, ratRange_succ]
        rfl

/-- Claim C5: when the progress sink signals cancellation (the GUI callback
raises `RuntimeError("Scan cancelled by user")` once cancel is requested),
the scanner aborts the remaining scan without returning any partial result,
samples only the frames up to the cancellation point, restores the cursor,
and the raised condition differs from every validation error and from every
completed result. -/
theorem C5_cancellation (host : Host) (cursor0 : Rat) (pairs : List (AttrName × Rat))
    (startF endF : Int) (c : Int)
    (hnd : (pairs.map Prod.fst).Nodup)
    (hvalid : ∀ a ∈ pairs.map Prod.fst, validKey host a)
    (hvals : ∀ p ∈ pairs, ∀ t : Rat, host.attrValue p.1 t ≠ none)
    (hle : startF ≤ endF) (hc1 : 1 ≤ c) (hc2 : c ≤ endF - startF + 1) :
    (check_attr_spike host cursor0 (.dict pairs) (.intV startF) (.intV endF)
        (some (cancelCB c))).1 = .error cancelledError
    ∧ (∀ rd, (check_attr_spike host cursor0 (.dict pairs) (.intV startF) (.intV endF)
        (some (cancelCB c))).1 ≠ .ok rd)
    ∧ (∀ b, cancelledError ≠ .runtimeError ("Node " ++ b ++ " does not exist"))
    ∧ (∀ b t, cancelledError
        ≠ .runtimeError ("Attribute " ++ b ++ " is not numeric (type: " ++ t ++ ")"))
    ∧ (∀ a ∈ pairs.map Prod.fst,
        sampleEventsOf a (check_attr_spike host cursor0 (.dict pairs)
          (.intV startF) (.intV endF) (some (cancelCB c))).2.2 = ratRange startF c.toNat)
    ∧ (check_attr_spike host cursor0 (.dict pairs) (.intV startF) (.intV endF)
        (some (cancelCB c))).2.1 = cursor0 := by
  have hloop := scanFrames_cancel host pairs (endF - startF + 1) c hvals
    (endF + 1 - startF).toNat startF 0 ⟨cursor0, fun _ => none, []⟩ (by omega) (by omega)
  rcases hva : validateAttrs host (pairs.map Prod.fst) with ⟨rv, tr0⟩
  have hrv : rv = .ok () := by
    have h2 := validateAttrs_ok host _ hvalid
    rw [hva] at h2
    cases rv with
    | error e => exact absurd h2 (by simp)
    | ok u => rfl
  subst hrv
  have hev : ∀ e ∈ tr0,
      (∃ b, e = Event.objExists b) ∨ (∃ b, e = Event.getAttrType b) := by
    have h2 := validateAttrs_events host (pairs.map Prod.fst)
    rw [hva] at h2
    exact h2
  have htr0 : ∀ a, sampleEventsOf a tr0 = [] := by
    intro a
    apply sampleEventsOf_nil_of
    intro e he b t
    rcases hev e he with ⟨d, rfl⟩ | ⟨d, rfl⟩ <;> simp
  simp only [check_attr_spike, hva, resolveStart, resolveEnd, hloop.1]
  refine ⟨trivial, ?_, ?_, ?_, ?_, trivial⟩
  · intro rd h
    exact absurd h (by simp)
  · intro b h
    rw [cancelledError] at h
    exact cancel_ne_node_msg b (PyErr.runtimeError.inj h)
  · intro b t h
    rw [cancelledError] at h
    exact cancel_ne_attr_msg b t (PyErr.runtimeError.inj h)
  · intro a ha
    have hq1 : sampleEventsOf a
        [Event.queryTime, Event.undoOpenChunk, Event.refreshSuspend true] = [] := rfl
    have hq2 : sampleEventsOf a
        [Event.setTime cursor0, Event.undoCloseChunk,
          Event.refreshSuspend false, Event.refreshForce] = [] := rfl
    simp only [sampleEventsOf_append, htr0, hq1, hq2, List.nil_append, List.append_nil]
    rw [hloop.2 a ha hnd]
    norm_num

theorem C5_cancellation_witness :
    (([("A.v", (5 : Rat))].map Prod.fst).Nodup
    ∧ (∀ a ∈ [("A.v", (5 : Rat))].map Prod.fst, validKey demoHost a)
    ∧ (∀ p ∈ [("A.v", (5 : Rat))], ∀ t : Rat, demoHost.attrValue p.1 t ≠ none)
    ∧ ((1 : Int) ≤ 4) ∧ ((1 : Int) ≤ 2) ∧ ((2 : Int) ≤ 4 - 1 + 1))
    ∧ ((check_attr_spike demoHost 0 (.dict [("A.v", 5)]) (.intV 1) (.intV 4)
          (some (cancelCB 2))).1 = .error cancelledError
      ∧ (∀ rd, (check_attr_spike demoHost 0 (.dict [("A.v", 5)]) (.intV 1) (.intV 4)
          (some (cancelCB 2))).1 ≠ .ok rd)
      ∧ (∀ b, cancelledError ≠ .runtimeError ("Node " ++ b ++ " does not exist"))
      ∧ (∀ b t, cancelledError
          ≠ .runtimeError ("Attribute " ++ b ++ " is not numeric (type: " ++ t ++ ")"))
      ∧ (∀ a ∈ [("A.v", (5 : Rat))].map Prod.fst,
          sampleEventsOf a (check_attr_spike demoHost 0 (.dict [("A.v", 5)])
            (.intV 1) (.intV 4) (some (cancelCB 2))).2.2 = ratRange 1 (2 : Int).toNat)
      ∧ (check_attr_spike demoHost 0 (.dict [("A.v", 5)]) (.intV 1) (.intV 4)
          (some (cancelCB 2))).2.1 = 0) :=
  ⟨⟨by decide, by decide, fun p _ t h => Option.noConfusion h, by decide, by decide, by decide⟩,
    C5_cancellation demoHost 0 [("A.v", 5)] 1 4 2 (by decide) (by decide)
      (fun p _ t h => Option.noConfusion h) (by decide) (by decide) (by decide)⟩

/-- Claim C6 fails on the code: on a host whose playback range is `[5, 7]`,
a call that omits both frame bounds (so Python substitutes the declared
defaults `start_frame=0`, `end_frame=None`) samples the frames `0..7`, not
the playback range `5..7`: the omitted start frame became `0`, not the
playback minimum. -/
theorem C6_counterexample :
    pyTrunc rangeHost.playbackMin = 5
    ∧ sampleEventsOf ("pCube1.tx")
        (check_attr_spike_defaults rangeHost 0 (.dict [("pCube1.tx", 1)])).2.2
      = ratRange 0 8
    ∧ ratRange 0 8 ≠ ratRange 5 3 := by
  refine ⟨by decide, by decide, by decide⟩

/-- Claim C6 (amended): an omitted end frame is replaced by the playback
range maximum, but an omitted start frame becomes the declared default `0`;
the playback range minimum is used only when the start frame is passed
explicitly as `None`. -/
theorem C6_amended_defaults (host : Host) (cursor0 : Rat)
    (pairs : List (AttrName × Rat))
    (hnd : (pairs.map Prod.fst).Nodup)
    (hvalid : ∀ a ∈ pairs.map Prod.fst, validKey host a)
    (hvals : ∀ p ∈ pairs, ∀ t : Rat, host.attrValue p.1 t ≠ none) :
    (∀ a ∈ pairs.map Prod.fst,
      sampleEventsOf a (check_attr_spike_defaults host cursor0 (.dict pairs)).2.2
        = ratRange 0 (pyTrunc host.playbackMax + 1).toNat)
    ∧ (∀ a ∈ pairs.map Prod.fst,
      sampleEventsOf a (check_attr_spike host cursor0 (.dict pairs) .noneV .noneV none).2.2
        = ratRange (pyTrunc host.playbackMin)
            (pyTrunc host.playbackMax + 1 - pyTrunc host.playbackMin).toNat) := by
  constructor
  · intro a ha
    have h := check_sampleEvents host cursor0 pairs (.intV 0) .noneV hnd hvalid hvals a ha
    simp only [resolveStart, resolveEnd] at h
    have h3 : pyTrunc host.playbackMax + 1 - 0 = pyTrunc host.playbackMax + 1 := by omega
    rw [h3] at h
    exact h
  · intro a ha
    exact check_sampleEvents host cursor0 pairs .noneV .noneV hnd hvalid hvals a ha

theorem C6_amended_defaults_witness :
    (([("pCube1.tx", (1 : Rat))].map Prod.fst).Nodup
    ∧ (∀ a ∈ [("pCube1.tx", (1 : Rat))].map Prod.fst, validKey rangeHost a)
    ∧ (∀ p ∈ [("pCube1.tx", (1 : Rat))], ∀ t : Rat, rangeHost.attrValue p.1 t ≠ none))
    ∧ ((∀ a ∈ [("pCube1.tx", (1 : Rat))].map Prod.fst,
        sampleEventsOf a
            (check_attr_spike_defaults rangeHost 0 (.dict [("pCube1.tx", 1)])).2.2
          = ratRange 0 (pyTrunc rangeHost.playbackMax + 1).toNat)
      ∧ (∀ a ∈ [("pCube1.tx", (1 : Rat))].map Prod.fst,
        sampleEventsOf a
            (check_attr_spike rangeHost 0 (.dict [("pCube1.tx", 1)]) .noneV .noneV none).2.2
          = ratRange (pyTrunc rangeHost.playbackMin)
              (pyTrunc rangeHost.playbackMax + 1 - pyTrunc rangeHost.playbackMin).toNat)) :=
  ⟨⟨by decide, by decide, fun p _ t h => Option.noConfusion h⟩,
    C6_amended_defaults rangeHost 0 [("pCube1.tx", 1)] (by decide) (by decide)
      (fun p _ t h => Option.noConfusion h)⟩

theorem sampleFrame_nonempty (host : Host) (i : Int) :
    ∀ (ps : List (AttrName × Rat)) (st : ScanState),
      nonemptyVals st.result → nonemptyVals (sampleFrame host i ps st).2.1.result := by
  intro ps
  induction ps with
  | nil => intro st h; exact h
  | cons p rest ih =>
    obtain ⟨a, thr⟩ := p
    intro st h
    simp only [sampleFrame]
    cases hv : host.attrValue a st.cursor with
    | none => exact h
    | some val =>
      simp only []
      cases hp : st.prevVals a with
      | none => exact ih _ h
      | some pv =>
        simp only []
        by_cases hlt : thr < ratAbs (val - pv)
        · rw [if_pos hlt]
          exact ih _ (insertSpike_nonempty h)
        · rw [if_neg hlt]
          exact ih _ h

theorem scanFrames_nonempty (host : Host) (pairs : List (AttrName × Rat))
    (cb : Option (Int → Int → Except PyErr Unit)) (total : Int) :
    ∀ (frames : List Int) (idx : Int) (st : ScanState),
      nonemptyVals st.result →
      nonemptyVals (scanFrames host pairs cb total frames idx st).2.1.result := by
  intro frames
  induction frames with
  | nil => intro idx st h; exact h
  | cons i rest ih =>
    intro idx st h
    have hsf := sampleFrame_nonempty host i pairs { st with cursor := (i : Rat) } h
    simp only [scanFrames]
    split
    · rename_i e st2 tr heq
      rw [heq] at hsf
      exact hsf
    · rename_i u st2 tr heq
      rw [heq] at hsf
      split
      · exact ih _ _ hsf
      · split
        · exact hsf
        · exact ih _ _ hsf

theorem sampleFrame_no_key (host : Host) (i : Int) (a : AttrName) :
    ∀ (ps : List (AttrName × Rat)) (st : ScanState),
      a ∉ ps.map Prod.fst →
      a ∉ st.result.map Prod.fst →
      a ∉ (sampleFrame host i ps st).2.1.result.map Prod.fst
      ∧ (sampleFrame host i ps st).2.1.prevVals a = st.prevVals a := by
  intro ps
  induction ps with
  | nil => intro st _ h; exact ⟨h, rfl⟩
  | cons p rest ih =>
    obtain ⟨b, thr⟩ := p
    intro st hk h
    simp only [List.map_cons, List.mem_cons, not_or] at hk
    have hba : b ≠ a := fun he => hk.1 he.symm
    simp only [sampleFrame]
    cases hv : host.attrValue b st.cursor with
    | none => exact ⟨h, rfl⟩
    | some val =>
      simp only []
      cases hp : st.prevVals b with
      | none =>
        have hrec := ih { st with prevVals := updatePrev st.prevVals b val } hk.2 h
        exact ⟨hrec.1, by rw [hrec.2]; simp [updatePrev, hk.1]⟩
      | some pv =>
        simp only []
        by_cases hlt : thr < ratAbs (val - pv)
        · rw [if_pos hlt]
          have habs : a ∉ (insertSpike st.result b
              ⟨i - 1, i, pv, val, ratAbs (val - pv)⟩).map Prod.fst := by
            rw [mem_keys_insertSpike]
            rintro (hm | rfl)
            · exact h hm
            · exact hba rfl
          have hrec := ih { st with
              result := insertSpike st.result b ⟨i - 1, i, pv, val, ratAbs (val - pv)⟩,
              prevVals := updatePrev st.prevVals b val } hk.2 habs
          exact ⟨hrec.1, by rw [hrec.2]; simp [updatePrev, hk.1]⟩
        · rw [if_neg hlt]
          have hrec := ih { st with prevVals := updatePrev st.prevVals b val } hk.2 h
          exact ⟨hrec.1, by rw [hrec.2]; simp [updatePrev, hk.1]⟩

theorem sampleFrame_absent (host : Host) (i : Int) (vf : AttrName → Rat → Rat)
    (a : AttrName) (thr : Rat) :
    ∀ (ps : List (AttrName × Rat)) (st : ScanState),
      (ps.map Prod.fst).Nodup →
      (∀ p ∈ ps, host.attrValue p.1 st.cursor = some (vf p.1 st.cursor)) →
      (a, thr) ∈ ps →
      (∀ pv, st.prevVals a = some pv → ¬ thr < ratAbs (vf a st.cursor - pv)) →
      a ∉ st.result.map Prod.fst →
      a ∉ (sampleFrame host i ps st).2.1.result.map Prod.fst
      ∧ (sampleFrame host i ps st).2.1.prevVals a = some (vf a st.cursor) := by
  intro ps
  induction ps with
  | nil => intro st _ _ hmem; cases hmem
  | cons p rest ih =>
    obtain ⟨b, t⟩ := p
    intro st hnd hvals hmem hno habs
    simp only [List.map_cons, List.nodup_cons] at hnd
    have hvb := hvals (b, t) (List.mem_cons_self _ _)
    simp only [sampleFrame, hvb]
    by_cases hba : b = a
    · subst hba
      have ht : t = thr := by
        rcases List.mem_cons.1 hmem with heq | hmem2
        · exact ((Prod.ext_iff.1 heq).2).symm
        · exact absurd (List.mem_map.2 ⟨(b, thr), hmem2, rfl⟩) hnd.1
      subst ht
      cases hp : st.prevVals b with
      | none =>
        have hrec := sampleFrame_no_key host i b rest
          { st with prevVals := updatePrev st.prevVals b (vf b st.cursor) } hnd.1 habs
        refine ⟨hrec.1, ?_⟩
        rw [hrec.2]
        simp [updatePrev]
      | some pv =>
        simp only []
        rw [if_neg (hno pv hp)]
        have hrec := sampleFrame_no_key host i b rest
          { st with prevVals := updatePrev st.prevVals b (vf b st.cursor) } hnd.1 habs
        refine ⟨hrec.1, ?_⟩
        rw [hrec.2]
        simp [updatePrev]
    · have hmem2 : (a, thr) ∈ rest := by
        rcases List.mem_cons.1 hmem with heq | hmem2
        · exact absurd (congrArg Prod.fst heq).symm hba
        · exact hmem2
      have hpv_pres : ∀ v0, updatePrev st.prevVals b v0 a = st.prevVals a := by
        intro v0
        simp only [updatePrev]
        rw [if_neg (fun he => hba he.symm)]
      cases hp : st.prevVals b with
      | none =>
        have hrec := ih { st with prevVals := updatePrev st.prevVals b (vf b st.cursor) }
          hnd.2 (fun q hq => hvals q (List.mem_cons_of_mem _ hq)) hmem2
          (fun pv hpv => hno pv (by rw [← hpv_pres (vf b st.cursor)]; exact hpv)) habs
        exact hrec
      | some pv =>
        simp only []
        by_cases hlt : t < ratAbs (vf b st.cursor - pv)
        · rw [if_pos hlt]
          have habs2 : a ∉ (insertSpike st.result b
              ⟨i - 1, i, pv, vf b st.cursor, ratAbs (vf b st.cursor - pv)⟩).map Prod.fst := by
            rw [mem_keys_insertSpike]
            rintro (hm | rfl)
            · exact habs hm
            · exact hba rfl
          exact ih { st with
              result := insertSpike st.result b
                ⟨i - 1, i, pv, vf b st.cursor, ratAbs (vf b st.cursor - pv)⟩,
              prevVals := updatePrev st.prevVals b (vf b st.cursor) }
            hnd.2 (fun q hq => hvals q (List.mem_cons_of_mem _ hq)) hmem2
            (fun pv2 hpv => hno pv2 (by rw [← hpv_pres (vf b st.cursor)]; exact hpv)) habs2
        · rw [if_neg hlt]
          exact ih { st with prevVals := updatePrev st.prevVals b (vf b st.cursor) }
            hnd.2 (fun q hq => hvals q (List.mem_cons_of_mem _ hq)) hmem2
            (fun pv2 hpv => hno pv2 (by rw [← hpv_pres (vf b st.cursor)]; exact hpv)) habs

theorem scanFrames_absent (host : Host) (pairs : List (AttrName × Rat)) (total : Int)
    (vf : AttrName → Rat → Rat) (a : AttrName) (thr : Rat) (lo hi : Int)
    (hnd : (pairs.map Prod.fst).Nodup)
    (hvals : ∀ p ∈ pairs, ∀ t : Rat, host.attrValue p.1 t = some (vf p.1 t))
    (ha : (a, thr) ∈ pairs)
    (hbound : ∀ i : Int, lo < i → i ≤ hi →
      ¬ thr < ratAbs (vf a (i : Rat) - vf a ((i - 1 : Int) : Rat))) :
    ∀ (n : Nat) (s : Int) (idx : Int) (st : ScanState),
      lo ≤ s → (s + n : Int) ≤ hi + 1 →
      (st.prevVals a = none ∨ (lo < s ∧ st.prevVals a = some (vf a ((s - 1 : Int) : Rat)))) →
      a ∉ st.result.map Prod.fst →
      a ∉ (scanFrames host pairs none total
            (intRange s n) idx st).2.1.result.map Prod.fst := by
  intro n
  induction n with
  | zero => intro s idx st _ _ _ h; exact h
  | succ n ih =>
    intro s idx st hlo hhi hinv habs
    have hs_hi : s ≤ hi := by push_cast at hhi; omega
    have hvals1 : ∀ p ∈ pairs,
        host.attrValue p.1 ((s : Int) : Rat) = some (vf p.1 ((s : Int) : Rat)) :=
      fun p hp => hvals p hp _
    have hno : ∀ pv, ({ st with cursor := ((s : Int) : Rat) } : ScanState).prevVals a = some pv →
        ¬ thr < ratAbs (vf a ((s : Int) : Rat) - pv) := by
      intro pv hpv
      have hpv2 : st.prevVals a = some pv := hpv
      rcases hinv with hnone | ⟨hlt_s, hprev⟩
      · rw [hnone] at hpv2; cases hpv2
      · rw [hprev] at hpv2
        have : pv = vf a ((s - 1 : Int) : Rat) := (Option.some.inj hpv2).symm
        subst this
        exact hbound s hlt_s hs_hi
    have hsf := sampleFrame_absent host s vf a thr pairs { st with cursor := ((s : Int) : Rat) }
      hnd hvals1 ha hno habs
    simp only [intRange, scanFrames]
    split
    · rename_i e st2 tr heq
      rw [heq] at hsf
      exact hsf.1
    · rename_i u st2 tr heq
      rw [heq] at hsf
      have hprev2 : st2.prevVals a = some (vf a (((s + 1 : Int) - 1 : Int) : Rat)) := by
        have h1 : ((s + 1 : Int) - 1) = s := by omega
        rw [h1]
        exact hsf.2
      exact ih (s + 1) (idx + 1) st2 (by omega) (by push_cast at hhi ⊢; omega)
        (Or.inr ⟨by omega, hprev2⟩) hsf.1

/-- Claim C7: an attribute with zero spike records is entirely absent from
the returned mapping (no key ever maps to an empty list), and in particular
an attribute whose every consecutive frame-to-frame delta is at most its
threshold does not appear in the result. -/
theorem C7_no_empty_entries (host : Host) (cursor0 : Rat)
    (pairs : List (AttrName × Rat)) (startF endF : Int)
    (vf : AttrName → Rat → Rat) (a : AttrName) (thr : Rat)
    (hnd : (pairs.map Prod.fst).Nodup)
    (hvalid : ∀ b ∈ pairs.map Prod.fst, validKey host b)
    (hvals : ∀ p ∈ pairs, ∀ t : Rat, host.attrValue p.1 t = some (vf p.1 t))
    (hle : startF ≤ endF)
    (ha : (a, thr) ∈ pairs)
    (hbound : ∀ i : Int, startF < i → i ≤ endF →
      ratAbs (vf a (i : Rat) - vf a ((i - 1 : Int) : Rat)) ≤ thr) :
    ∃ rd, (check_attr_spike host cursor0 (.dict pairs)
        (.intV startF) (.intV endF) none).1 = .ok rd
      ∧ (∀ p ∈ rd, p.2 ≠ [])
      ∧ a ∉ rd.map Prod.fst := by
  rcases hva : validateAttrs host (pairs.map Prod.fst) with ⟨rv, tr0⟩
  have hrv : rv = .ok () := by
    have h2 := validateAttrs_ok host _ hvalid
    rw [hva] at h2
    cases rv with
    | error e => exact absurd h2 (by simp)
    | ok u => rfl
  subst hrv
  have hvals2 : ∀ p ∈ pairs, ∀ t : Rat, host.attrValue p.1 t ≠ none := by
    intro p hp t h
    rw [hvals p hp t] at h
    exact Option.noConfusion h
  have hloop := scanFrames_trace_none host pairs (endF - startF + 1) hvals2
    (endF + 1 - startF).toNat startF 0 ⟨cursor0, fun _ => none, []⟩
  simp only [check_attr_spike, hva, resolveStart, resolveEnd]
  split
  · rename_i e heq
    rw [hloop.1] at heq
    exact absurd heq (by simp)
  · refine ⟨_, rfl, ?_, ?_⟩
    · exact scanFrames_nonempty host pairs none (endF - startF + 1) _ 0
        ⟨cursor0, fun _ => none, []⟩ (fun p hp => absurd hp (List.not_mem_nil p))
    · exact scanFrames_absent host pairs (endF - startF + 1) vf a thr startF endF
        hnd hvals ha (fun i h1 h2 => not_lt.2 (hbound i h1 h2))
        (endF + 1 - startF).toNat startF 0 ⟨cursor0, fun _ => none, []⟩
        le_rfl (by omega) (Or.inl rfl) (fun h => absurd h (List.not_mem_nil a))

theorem C7_no_empty_entries_witness :
    (([("A.v", (100 : Rat))].map Prod.fst).Nodup
    ∧ (∀ b ∈ [("A.v", (100 : Rat))].map Prod.fst, validKey demoHost b)
    ∧ (∀ p ∈ [("A.v", (100 : Rat))], ∀ t : Rat,
        demoHost.attrValue p.1 t = some (demoVal p.1 t))
    ∧ ((1 : Int) ≤ 4)
    ∧ (("A.v", (100 : Rat)) ∈ [("A.v", (100 : Rat))])
    ∧ (∀ i : Int, 1 < i → i ≤ 4 →
        ratAbs (demoVal ("A.v") (i : Rat) - demoVal ("A.v") ((i - 1 : Int) : Rat)) ≤ 100))
    ∧ (∃ rd, (check_attr_spike demoHost 0 (.dict [("A.v", 100)])
          (.intV 1) (.intV 4) none).1 = .ok rd
        ∧ (∀ p ∈ rd, p.2 ≠ [])
        ∧ "A.v" ∉ rd.map Prod.fst) :=
  ⟨⟨by decide, by decide, fun p _ t => rfl, by decide, by decide,
      by intro i h1 h2; interval_cases i <;> decide⟩,
    C7_no_empty_entries demoHost 0 [("A.v", 100)] 1 4 demoVal ("A.v") 100
      (by decide) (by decide) (fun p _ t => rfl) (by decide) (by decide)
      (by intro i h1 h2; interval_cases i <;> decide)⟩

theorem validateAttrs_cong (h1 h2 : Host) :
    ∀ l : List AttrName,
      (∀ a ∈ l, h1.objExists a = h2.objExists a) →
      (∀ a ∈ l, h1.attrType a = h2.attrType a) →
      validateAttrs h1 l = validateAttrs h2 l := by
  intro l
  induction l with
  | nil => intro _ _; rfl
  | cons a rest ih =>
    intro he ht
    simp only [validateAttrs]
    rw [he a (List.mem_cons_self _ _), ht a (List.mem_cons_self _ _),
      ih (fun b hb => he b (List.mem_cons_of_mem _ hb))
        (fun b hb => ht b (List.mem_cons_of_mem _ hb))]

theorem sampleFrame_cong (h1 h2 : Host) (i : Int) (K : List AttrName)
    (hval : ∀ x ∈ K, ∀ t : Rat, h1.attrValue x t = h2.attrValue x t) :
    ∀ (ps : List (AttrName × Rat)) (st1 st2 : ScanState),
      (∀ x ∈ ps.map Prod.fst, x ∈ K) →
      st1.cursor = st2.cursor →
      st1.result = st2.result →
      (∀ x ∈ K, st1.prevVals x = st2.prevVals x) →
      (sampleFrame h1 i ps st1).1 = (sampleFrame h2 i ps st2).1
      ∧ (sampleFrame h1 i ps st1).2.1.result = (sampleFrame h2 i ps st2).2.1.result
      ∧ (sampleFrame h1 i ps st1).2.1.cursor = (sampleFrame h2 i ps st2).2.1.cursor
      ∧ (∀ x ∈ K, (sampleFrame h1 i ps st1).2.1.prevVals x
          = (sampleFrame h2 i ps st2).2.1.prevVals x) := by
  intro ps
  induction ps with
  | nil => intro st1 st2 _ hc hr hp; exact ⟨rfl, hr, hc, hp⟩
  | cons p rest ih =>
    obtain ⟨b, t⟩ := p
    intro st1 st2 hK hc hr hp
    have hbK : b ∈ K := hK b (by simp)
    have hv : h1.attrValue b st1.cursor = h2.attrValue b st2.cursor := by
      rw [hc]
      exact hval b hbK _
    have hupd : ∀ v0, ∀ x ∈ K,
        updatePrev st1.prevVals b v0 x = updatePrev st2.prevVals b v0 x := by
      intro v0 x hx
      simp only [updatePrev]
      by_cases hxb : x = b
      · rw [if_pos hxb, if_pos hxb]
      · rw [if_neg hxb, if_neg hxb]
        exact hp x hx
    simp only [sampleFrame]
    cases hv2 : h2.attrValue b st2.cursor with
    | none =>
      have hv1 : h1.attrValue b st1.cursor = none := hv.trans hv2
      simp only [hv1]
      exact ⟨trivial, hr, hc, hp⟩
    | some val =>
      have hv1 : h1.attrValue b st1.cursor = some val := hv.trans hv2
      simp only [hv1]
      have hpb := hp b hbK
      cases hp2 : st2.prevVals b with
      | none =>
        have hp1 : st1.prevVals b = none := by rw [hpb, hp2]
        simp only [hp1]
        exact ih { st1 with prevVals := updatePrev st1.prevVals b val }
          { st2 with prevVals := updatePrev st2.prevVals b val }
          (fun x hx => hK x (List.mem_cons_of_mem _ hx)) hc hr (hupd val)
      | some pv =>
        have hp1 : st1.prevVals b = some pv := by rw [hpb, hp2]
        simp only [hp1]
        by_cases hlt : t < ratAbs (val - pv)
        · rw [if_pos hlt, if_pos hlt]
          exact ih _ _
            (fun x hx => hK x (List.mem_cons_of_mem _ hx)) hc (by rw [hr]) (hupd val)
        · rw [if_neg hlt, if_neg hlt]
          exact ih _ _
            (fun x hx => hK x (List.mem_cons_of_mem _ hx)) hc hr (hupd val)

theorem scanFrames_cong (h1 h2 : Host) (pairs : List (AttrName × Rat))
    (cb : Option (Int → Int → Except PyErr Unit)) (total : Int) (K : List AttrName)
    (hval : ∀ x ∈ K, ∀ t : Rat, h1.attrValue x t = h2.attrValue x t)
    (hK : ∀ x ∈ pairs.map Prod.fst, x ∈ K) :
    ∀ (frames : List Int) (idx : Int) (st1 st2 : ScanState),
      st1.result = st2.result →
      (∀ x ∈ K, st1.prevVals x = st2.prevVals x) →
      (scanFrames h1 pairs cb total frames idx st1).1
        = (scanFrames h2 pairs cb total frames idx st2).1
      ∧ (scanFrames h1 pairs cb total frames idx st1).2.1.result
        = (scanFrames h2 pairs cb total frames idx st2).2.1.result := by
  intro frames
  induction frames with
  | nil => intro idx st1 st2 hr _; exact ⟨rfl, hr⟩
  | cons i rest ih =>
    intro idx st1 st2 hr hp
    have hsf := sampleFrame_cong h1 h2 i K hval pairs
      { st1 with cursor := (i : Rat) } { st2 with cursor := (i : Rat) } hK rfl hr hp
    simp only [scanFrames]
    rcases hres1 : sampleFrame h1 i pairs { st1 with cursor := (i : Rat) } with ⟨r1, st1x, tr1⟩
    rcases hres2 : sampleFrame h2 i pairs { st2 with cursor := (i : Rat) } with ⟨r2, st2x, tr2⟩
    rw [hres1, hres2] at hsf
    have hr12 : r1 = r2 := hsf.1
    subst hr12
    cases r1 with
    | error e => exact ⟨by rfl, hsf.2.1⟩
    | ok u =>
      cases cb with
      | none => exact ih (idx + 1) st1x st2x hsf.2.1 hsf.2.2.2
      | some f =>
        dsimp only
        cases hf : f (idx + 1) total with
        | error e => exact ⟨by rfl, hsf.2.1⟩
        | ok u2 => exact ih (idx + 1) st1x st2x hsf.2.1 hsf.2.2.2

/-- Claim C8: two invocations over the same request and range, against hosts
whose attributes resolve identically and yield identical values at every
time, return identical outcomes (same attribute order, same spike records),
regardless of where each cursor initially sits. -/
theorem C8_deterministic (h1 h2 : Host) (c1 c2 : Rat) (pairs : List (AttrName × Rat))
    (startF endF : Int) (cb : Option (Int → Int → Except PyErr Unit))
    (he : ∀ a ∈ pairs.map Prod.fst, h1.objExists a = h2.objExists a)
    (ht : ∀ a ∈ pairs.map Prod.fst, h1.attrType a = h2.attrType a)
    (hv : ∀ a ∈ pairs.map Prod.fst, ∀ t : Rat, h1.attrValue a t = h2.attrValue a t) :
    (check_attr_spike h1 c1 (.dict pairs) (.intV startF) (.intV endF) cb).1
      = (check_attr_spike h2 c2 (.dict pairs) (.intV startF) (.intV endF) cb).1 := by
  have hva := validateAttrs_cong h1 h2 (pairs.map Prod.fst) he ht
  rcases hva2 : validateAttrs h2 (pairs.map Prod.fst) with ⟨rv, tr2⟩
  have hva1 : validateAttrs h1 (pairs.map Prod.fst) = (rv, tr2) := by rw [hva, hva2]
  cases rv with
  | error e => simp [check_attr_spike, hva1, hva2]
  | ok u =>
    cases u
    simp only [check_attr_spike, hva1, hva2, resolveStart, resolveEnd]
    have hcong := scanFrames_cong h1 h2 pairs cb (endF - startF + 1) (pairs.map Prod.fst)
      hv (fun x hx => hx)
      (intRange startF (endF + 1 - startF).toNat) 0
      ⟨c1, fun _ => none, []⟩ ⟨c2, fun _ => none, []⟩ rfl (fun x _ => rfl)
    rcases hs1 : scanFrames h1 pairs cb (endF - startF + 1)
      (intRange startF (endF + 1 - startF).toNat) 0 ⟨c1, fun _ => none, []⟩
      with ⟨ra, sta, tra⟩
    rcases hs2 : scanFrames h2 pairs cb (endF - startF + 1)
      (intRange startF (endF + 1 - startF).toNat) 0 ⟨c2, fun _ => none, []⟩
      with ⟨rb, stb, trb⟩
    rw [hs1, hs2] at hcong
    have hab : ra = rb := hcong.1
    subst hab
    cases ra with
    | error e => rfl
    | ok u =>
      show Except.ok sta.result = Except.ok stb.result
      exact congrArg _ hcong.2

theorem C8_deterministic_witness :
    ((∀ a ∈ [("A.v", (5 : Rat))].map Prod.fst, demoHost.objExists a = demoHost2.objExists a)
    ∧ (∀ a ∈ [("A.v", (5 : Rat))].map Prod.fst, demoHost.attrType a = demoHost2.attrType a)
    ∧ (∀ a ∈ [("A.v", (5 : Rat))].map Prod.fst, ∀ t : Rat,
        demoHost.attrValue a t = demoHost2.attrValue a t))
    ∧ (check_attr_spike demoHost 0 (.dict [("A.v", 5)]) (.intV 1) (.intV 4) none).1
      = (check_attr_spike demoHost2 7 (.dict [("A.v", 5)]) (.intV 1) (.intV 4) none).1 :=
  ⟨⟨fun a _ => rfl, fun a _ => rfl, fun a _ t => rfl⟩,
    C8_deterministic demoHost demoHost2 0 7 [("A.v", 5)] 1 4 none
      (fun a _ => rfl) (fun a _ => rfl) (fun a _ t => rfl)⟩
